import Mathlib

/-!
Shallow embedding of the sync engine of `src/sync.rs` (with `DriveItem`
from `src/api.rs`).  Rust `HashMap`s are modelled as association lists in
the map's (unspecified) iteration order; `u64` becomes `Nat`; fallible
operations return `Except String`; wall-clock reads (`SystemTime::now()`)
are passed in as an explicit `now : Nat` argument.
-/

namespace OneDriveSync

/-- Rust `DriveItem` (api.rs lines 14-24).  The serde `file` / `folder`
`Option<Value>` fields matter to the engine only through `is_some()`,
so they are modelled as their presence flags. -/
structure DriveItem where
  id : String
  name : String
  last_modified : String
  size : Option Nat
  file : Bool
  folder : Bool
deriving DecidableEq

/-- Rust `FileRecord` (sync.rs lines 53-61): one row of the `files` catalog table. -/
structure FileRecord where
  path : String
  hash : String
  size : Nat
  modified : Nat
  onedrive_id : Option String
  last_synced : Nat
deriving DecidableEq

/-- Rust `SyncAction` (sync.rs lines 17-22). -/
inductive SyncAction where
  | upload (local_path remote_path : String)
  | download (remote_item : DriveItem) (local_path : String)
  | removeFromDatabase (path : String)
deriving DecidableEq

/-- Rust `SyncLogEntry` (sync.rs lines 63-70): one row of the `sync_log` table. -/
structure SyncLogEntry where
  timestamp : Nat
  action : String
  file_path : String
  status : String
  error : Option String
deriving DecidableEq

/-- Rust `SyncStatus` (sync.rs lines 24-35).  The `f32` progress field is
modelled over `ℚ`; no claim depends on float rounding. -/
structure SyncStatus where
  is_syncing : Bool
  last_sync : Option Nat
  files_uploaded : Nat
  files_downloaded : Nat
  files_deleted : Nat
  sync_errors : List String
  total_files : Nat
  current_operation : String
  sync_progress : ℚ
deriving DecidableEq

/-- Rust `SyncStatus::default` (sync.rs lines 37-51). -/
def SyncStatus.default : SyncStatus :=
  { is_syncing := false
    last_sync := none
    files_uploaded := 0
    files_downloaded := 0
    files_deleted := 0
    sync_errors := []
    total_files := 0
    current_operation := "Ready"
    sync_progress := 0 }

/-- Rust `HashMap::get`, on the association-list model: first entry with the key. -/
def mapGet {α : Type} : List (String × α) → String → Option α
  | [], _ => none
  | (k, v) :: rest, key => if k = key then some v else mapGet rest key

/-- Rust `HashMap::contains_key`. -/
def contains_key {α : Type} (m : List (String × α)) (key : String) : Bool :=
  (mapGet m key).isSome

/-- Rust `parse_iso_datetime` (sync.rs lines 631-641): the argument is ignored
and the current wall-clock time is returned ("return current timestamp as
placeholder" in the source). -/
def parse_iso_datetime (now : Nat) (_datetime_str : String) : Option Nat :=
  some now

/-- Rust `str::starts_with('.')` on the first character, as used at
sync.rs line 312 to skip hidden files. -/
def starts_with_dot (s : String) : Bool :=
  match s.data with
  | [] => false
  | c :: _ => c = '.'

/-- One regular file produced by the `WalkDir` traversal of the sync root
(sync.rs lines 302-341), with its path already relative to the root and
slash-normalized, and its metadata and hash read. -/
structure LocalEntry where
  relative_path : String
  hash : String
  size : Nat
  modified : Nat
deriving DecidableEq

/-- Rust `scan_local_files` (sync.rs lines 291-346): builds the local snapshot,
skipping any relative path that starts with `.` (line 312). -/
def scan_local_files (entries : List LocalEntry) : List (String × FileRecord) :=
  entries.filterMap fun e =>
    if starts_with_dot e.relative_path then none
    else some (e.relative_path,
      { path := e.relative_path
        hash := e.hash
        size := e.size
        modified := e.modified
        onedrive_id := none
        last_synced := 0 })

/-- The remote tree as the API would list it: each node is a `DriveItem`
together with the children `list_items` would return for it when it is a
folder. -/
inductive RemoteNode where
  | mk (item : DriveItem) (children : List RemoteNode)

mutual

/-- Rust `scan_remote_folder` (sync.rs lines 366-387): path construction and
recursion into subfolders.  Note there is no hidden-file filter here. -/
def scan_remote_folder (folder_path : String) :
    List RemoteNode → List (String × DriveItem)
  | [] => []
  | n :: rest =>
      scan_remote_node folder_path n ++ scan_remote_folder folder_path rest

/-- One `item` of the loop body of `scan_remote_folder` (sync.rs
lines 370-383). -/
def scan_remote_node (folder_path : String) :
    RemoteNode → List (String × DriveItem)
  | .mk item children =>
      let item_path := if folder_path = "/" then item.name
        else (folder_path.dropWhile (fun c => c = '/')) ++ "/" ++ item.name
      if item.file then [(item_path, item)]
      else if item.folder then
        scan_remote_folder ("/" ++ item_path) children
      else []

end

/-- Rust `scan_remote_files` (sync.rs lines 348-364): a failing listing is
caught and an **empty** snapshot is returned (lines 358-362); the failure
is only written to the tracing log. -/
def scan_remote_files (listing : Except String (List RemoteNode)) :
    List (String × DriveItem) :=
  match listing with
  | .ok nodes => scan_remote_folder "/" nodes
  | .error _ => []

/-- First loop of `determine_sync_actions` (sync.rs lines 432-458): a
locally known file uploads when its hash differs from the catalog hash; a
file with no catalog row uploads when it is also absent remotely. -/
def upload_checks (local_files : List (String × FileRecord))
    (remote_files : List (String × DriveItem))
    (stored_files : List (String × FileRecord)) : List SyncAction :=
  local_files.filterMap fun pf =>
    match mapGet stored_files pf.1 with
    | some stored_file =>
        if pf.2.hash ≠ stored_file.hash then
          some (SyncAction.upload pf.1 pf.1)
        else none
    | none =>
        if contains_key remote_files pf.1 then none
        else some (SyncAction.upload pf.1 pf.1)

/-- Second loop of `determine_sync_actions` (sync.rs lines 461-486): a
remote file downloads when it is absent locally, or when its parsed
modification time exceeds the catalog row's `last_synced`. -/
def download_checks (now : Nat)
    (local_files : List (String × FileRecord))
    (remote_files : List (String × DriveItem))
    (stored_files : List (String × FileRecord)) : List SyncAction :=
  remote_files.filterMap fun pr =>
    if contains_key local_files pr.1 then
      match mapGet stored_files pr.1 with
      | some stored_file =>
          if (parse_iso_datetime now pr.2.last_modified).getD 0 >
              stored_file.last_synced then
            some (SyncAction.download pr.2 pr.1)
          else none
      | none => none
    else some (SyncAction.download pr.2 pr.1)

/-- Third loop of `determine_sync_actions` (sync.rs lines 489-496): a
catalog row absent from both snapshots is removed from the database. -/
def cleanup_checks (local_files : List (String × FileRecord))
    (remote_files : List (String × DriveItem))
    (stored_files : List (String × FileRecord)) : List SyncAction :=
  stored_files.filterMap fun ps =>
    if !contains_key local_files ps.1 && !contains_key remote_files ps.1 then
      some (SyncAction.removeFromDatabase ps.1)
    else none

/-- Rust `determine_sync_actions` (sync.rs lines 419-508): the three planning
loops above, pushing into one `Vec` in that order.  The Rust function
returns `Result` but never errs. -/
def determine_sync_actions (now : Nat)
    (local_files : List (String × FileRecord))
    (remote_files : List (String × DriveItem))
    (stored_files : List (String × FileRecord)) : List SyncAction :=
  upload_checks local_files remote_files stored_files
    ++ download_checks now local_files remote_files stored_files
    ++ cleanup_checks local_files remote_files stored_files

/-- The durable and observable engine state: the `files` catalog table,
the append-only `sync_log` table, and the lock-protected `SyncStatus`. -/
structure EngineState where
  files : List (String × FileRecord)
  sync_log : List SyncLogEntry
  status : SyncStatus
deriving DecidableEq

/-- SQL `INSERT OR REPLACE INTO files` keyed by `path`. -/
def upsertRecord (m : List (String × FileRecord)) (key : String)
    (r : FileRecord) : List (String × FileRecord) :=
  if contains_key m key then
    m.map fun kv => if kv.1 = key then (key, r) else kv
  else m ++ [(key, r)]

/-- SQL `DELETE FROM files WHERE path = ?1`. -/
def deleteRecord (m : List (String × FileRecord)) (key : String) :
    List (String × FileRecord) :=
  m.filter fun kv => kv.1 ≠ key

/-- Rust `log_sync_event` (sync.rs lines 593-604): append one audit row. -/
def log_sync_event (now : Nat) (action file_path status : String)
    (error : Option String) (st : EngineState) : EngineState :=
  { st with sync_log := st.sync_log ++
      [{ timestamp := now, action := action, file_path := file_path,
         status := status, error := error }] }

/-- Environment for one `execute_sync_action` call: the outcome of the
remote transfer together with the local reads that precede the catalog
write (`api.upload_file` / `api.download_file`, `calculate_file_hash`,
`fs::metadata`), and the wall clock.  Any failure among those fallible
steps surfaces as `api_result = .error` and leaves the state untouched,
exactly as the `?` operators in sync.rs lines 510-569 do. -/
structure ExecEnv where
  api_result : Except String Unit
  remote_id : String
  hash : String
  size : Nat
  modified : Nat
  now : Nat

/-- Rust `execute_sync_action` (sync.rs lines 510-584).  On success the catalog
row is upserted, the matching counter incremented and a `success` audit
row appended; on failure the error propagates with the state unchanged.
No `failed` audit row is written here. -/
def execute_sync_action (env : ExecEnv) (st : EngineState) :
    SyncAction → EngineState × Except String Unit
  | SyncAction.upload local_path _remote_path =>
      match env.api_result with
      | .error e => (st, .error e)
      | .ok _ =>
          let record : FileRecord :=
            { path := local_path, hash := env.hash, size := env.size,
              modified := env.modified, onedrive_id := some env.remote_id,
              last_synced := env.now }
          let st := { st with files := upsertRecord st.files local_path record }
          let st := { st with status :=
            { st.status with files_uploaded := st.status.files_uploaded + 1 } }
          (log_sync_event env.now "upload" local_path "success" none st, .ok ())
  | SyncAction.download remote_item local_path =>
      match env.api_result with
      | .error e => (st, .error e)
      | .ok _ =>
          let record : FileRecord :=
            { path := local_path, hash := env.hash,
              size := remote_item.size.getD 0,
              modified := (parse_iso_datetime env.now
                remote_item.last_modified).getD 0,
              onedrive_id := some remote_item.id,
              last_synced := env.now }
          let st := { st with files := upsertRecord st.files local_path record }
          let st := { st with status :=
            { st.status with files_downloaded := st.status.files_downloaded + 1 } }
          (log_sync_event env.now "download" local_path "success" none st, .ok ())
  | SyncAction.removeFromDatabase path =>
      let st := { st with files := deleteRecord st.files path }
      let st := { st with status :=
        { st.status with files_deleted := st.status.files_deleted + 1 } }
      (log_sync_event env.now "remove_from_db" path "success" none st, .ok ())

/-- The `operation_desc` strings of sync.rs lines 264-268. -/
def operation_desc : SyncAction → String
  | SyncAction.upload local_path _ => "Uploading " ++ local_path
  | SyncAction.download _ local_path => "Downloading " ++ local_path
  | SyncAction.removeFromDatabase path => "Cleaning up " ++ path

/-- Set `current_operation` and `sync_progress` (the repeated
`update_status` closures of `perform_sync`). -/
def setOp (op : String) (progress : ℚ) (st : EngineState) : EngineState :=
  { st with status := { st.status with
      current_operation := op, sync_progress := progress } }

/-- The action loop of `perform_sync` (sync.rs lines 260-284): before
action `i` the status shows its description and `0.5 + 0.4·(i/total)`;
a failing action pushes its error onto `sync_errors` and the loop
continues with the remaining actions. -/
def run_actions (envs : Nat → ExecEnv) (total : Nat) :
    Nat → EngineState → List SyncAction → EngineState
  | _, st, [] => st
  | i, st, a :: rest =>
      let st1 := setOp (operation_desc a)
        (1/2 + (2/5) * ((i : ℚ) / (total : ℚ))) st
      match execute_sync_action (envs i) st1 a with
      | (st2, .ok _) => run_actions envs total (i + 1) st2 rest
      | (st2, .error e) =>
          run_actions envs total (i + 1)
            { st2 with status := { st2.status with
                sync_errors := st2.status.sync_errors ++ [e] } } rest

/-- Environment of one whole cycle: the local walk result, the remote
listing result, a per-action-index `ExecEnv`, and the wall clock. -/
structure CycleEnv where
  local_scan : Except String (List LocalEntry)
  remote_listing : Except String (List RemoteNode)
  exec_envs : Nat → ExecEnv
  now : Nat

/-- Rust `perform_sync` (sync.rs lines 207-289): scan local (a failure here
aborts the cycle via `?`), scan remote (never fails — an empty snapshot
replaces a failing listing), read the catalog, plan, then execute.
Action failures are collected, so the function returns `ok` whenever the
local scan succeeded. -/
def perform_sync (env : CycleEnv) (st : EngineState) :
    EngineState × Except String Unit :=
  let st := setOp "Scanning local files..." (1/10) st
  match env.local_scan with
  | .error e => (st, .error e)
  | .ok entries =>
      let local_files := scan_local_files entries
      let st := setOp "Scanning remote files..." (3/10) st
      let remote_files := scan_remote_files env.remote_listing
      let st := setOp "Loading sync database..." (2/5) st
      let stored_files := st.files
      let st := setOp "Determining sync actions..." (1/2) st
      let actions := determine_sync_actions env.now local_files remote_files
        stored_files
      let st := { st with status := { st.status with
          total_files := local_files.length + remote_files.length } }
      if actions.length = 0 then
        (setOp "All files are up to date" 1 st, .ok ())
      else
        (run_actions env.exec_envs actions.length 0 st actions, .ok ())

/-- The `update_status` closure at cycle entry (sync.rs lines 168-173):
sets the flag, clears `sync_errors` — and nothing else; in particular no
counter is reset. -/
def sync_entry_status (st : EngineState) : EngineState :=
  { st with status := { st.status with
      is_syncing := true, sync_errors := [],
      current_operation := "Starting sync...", sync_progress := 0 } }

/-- The `update_status` closure at cycle exit (sync.rs lines 179-183). -/
def sync_exit_status (now : Nat) (st : EngineState) : EngineState :=
  { st with status := { st.status with
      is_syncing := false, last_sync := some now, sync_progress := 1 } }

/-- Rust `sync` (sync.rs lines 158-205), the engine's `run_once`: the
single-flight check (lines 159-166, an early return leaving everything
untouched), the entry status update (which clears `sync_errors` but no
counter), `perform_sync`, the exit status update, and the final
`sync_complete` audit row — `success` exactly when `perform_sync`
returned `ok`. -/
def sync (env : CycleEnv) (st : EngineState) :
    EngineState × Except String Unit :=
  if st.status.is_syncing then
    (st, .error "Sync already in progress")
  else
    let res := perform_sync env (sync_entry_status st)
    let st2 := sync_exit_status env.now res.1
    match res.2 with
    | .ok _ =>
        let st3 := { st2 with status := { st2.status with
            current_operation := "Sync completed" } }
        (log_sync_event env.now "sync_complete" "" "success" none st3, .ok ())
    | .error e =>
        let st3 := { st2 with status := { st2.status with
            sync_errors := st2.status.sync_errors ++ [e],
            current_operation := "Sync failed" } }
        (log_sync_event env.now "sync_complete" "" "failed" (some e) st3,
          .error e)

/-- The path a planned action refers to. -/
def actionPath : SyncAction → String
  | SyncAction.upload local_path _ => local_path
  | SyncAction.download _ local_path => local_path
  | SyncAction.removeFromDatabase path => path

/-- Position of an action's kind in the planner's output: uploads, then
downloads, then database cleanups. -/
def kindRank : SyncAction → Nat
  | SyncAction.upload _ _ => 0
  | SyncAction.download _ _ => 1
  | SyncAction.removeFromDatabase _ => 2

/-- Whether `execute_sync_action` succeeds for this action under this
environment: database cleanups are infallible, transfers succeed when the
remote call does. -/
def action_succeeds (env : ExecEnv) : SyncAction → Bool
  | SyncAction.removeFromDatabase _ => true
  | _ => match env.api_result with
         | .ok _ => true
         | .error _ => false

/-- Statement-side measure: number of actions of the selected kind whose
execution succeeds, with per-index environments starting at index `i`. -/
def count_succ (isKind : SyncAction → Bool) (envs : Nat → ExecEnv) :
    Nat → List SyncAction → Nat
  | _, [] => 0
  | i, a :: rest =>
      (if isKind a ∧ action_succeeds (envs i) a then 1 else 0) +
        count_succ isKind envs (i + 1) rest

def isUpload : SyncAction → Bool
  | SyncAction.upload _ _ => true
  | _ => false

def isDownload : SyncAction → Bool
  | SyncAction.download _ _ => true
  | _ => false

def isRemove : SyncAction → Bool
  | SyncAction.removeFromDatabase _ => true
  | _ => false

/-- The action list one cycle computes (statement helper mirroring the
plan step of `perform_sync`; empty when the local scan aborts the cycle). -/
def cyclePlan (env : CycleEnv) (st : EngineState) : List SyncAction :=
  match env.local_scan with
  | .error _ => []
  | .ok entries =>
      determine_sync_actions env.now (scan_local_files entries)
        (scan_remote_files env.remote_listing) st.files

/-- Status text of the final `sync_complete` audit row as a function of
the cycle result (sync.rs lines 185-201). -/
def complStatus : Except String Unit → String
  | .ok _ => "success"
  | .error _ => "failed"

/-- Error text of the final `sync_complete` audit row. -/
def complErr : Except String Unit → Option String
  | .ok _ => none
  | .error e => some e

/-- Program counter of one `sync()` invocation, abstracted to its atomic
Status-lock critical sections (sync.rs lines 158-183): the read of
`is_syncing` (lines 159-162) and the `update_status` that sets it
(lines 168-173) are two *separate* lock acquisitions. -/
inductive TaskPhase where
  | start
  | checked (saw : Bool)
  | running
  | finished (ran_cycle : Bool)
deriving DecidableEq

/-- One atomic step of one invocation against the shared `is_syncing`
flag; `finished` is absorbing.  `finished false` is the early
`AlreadyRunning` return; the step out of `running` models the whole cycle
body followed by the `update_status` clearing the flag (lines 179-183). -/
def stepTask : Bool → TaskPhase → Bool × TaskPhase
  | flag, .start => (flag, .checked flag)
  | flag, .checked true => (flag, .finished false)
  | _, .checked false => (true, .running)
  | _, .running => (false, .finished true)
  | flag, .finished r => (flag, .finished r)

/-- Shared `is_syncing` flag plus the phases of two concurrent
invocations. -/
structure TwoTasks where
  flag : Bool
  t1 : TaskPhase
  t2 : TaskPhase
deriving DecidableEq

/-- Let the scheduled invocation (`false` = first, `true` = second) take
one atomic step. -/
def schedStep (s : TwoTasks) : Bool → TwoTasks
  | false =>
      let r := stepTask s.flag s.t1
      { s with flag := r.1, t1 := r.2 }
  | true =>
      let r := stepTask s.flag s.t2
      { s with flag := r.1, t2 := r.2 }

/-- Run an interleaving schedule of the two invocations. -/
def runSched : TwoTasks → List Bool → TwoTasks
  | s, [] => s
  | s, b :: rest => runSched (schedStep s b) rest

/-- The audit rows the action loop appends, as a function of the actions
and their environments (statement helper): one `success` row per
succeeding action, nothing for a failing one. -/
def logRows (envs : Nat → ExecEnv) : Nat → List SyncAction → List SyncLogEntry
  | _, [] => []
  | i, a :: rest =>
      (match a, (envs i).api_result with
       | SyncAction.upload lp _, .ok _ =>
           [{ timestamp := (envs i).now, action := "upload", file_path := lp,
              status := "success", error := none }]
       | SyncAction.download _ lp, .ok _ =>
           [{ timestamp := (envs i).now, action := "download", file_path := lp,
              status := "success", error := none }]
       | SyncAction.removeFromDatabase p, _ =>
           [{ timestamp := (envs i).now, action := "remove_from_db",
              file_path := p, status := "success", error := none }]
       | _, .error _ => [])
      ++ logRows envs (i + 1) rest

/-- The error strings the action loop pushes onto `sync_errors`
(statement helper): the error of each failing transfer, in action order. -/
def errList (envs : Nat → ExecEnv) : Nat → List SyncAction → List String
  | _, [] => []
  | i, a :: rest =>
      (match a, (envs i).api_result with
       | SyncAction.removeFromDatabase _, _ => []
       | _, .ok _ => []
       | _, .error e => [e])
      ++ errList envs (i + 1) rest

/- ### Concrete sample data for counterexamples and witnesses -/

def envOK : ExecEnv :=
  { api_result := .ok (), remote_id := "R-new", hash := "hn", size := 5,
    modified := 60, now := 200 }

def envFail : ExecEnv :=
  { api_result := .error "boom", remote_id := "", hash := "", size := 0,
    modified := 0, now := 200 }

def st0 : EngineState :=
  { files := [], sync_log := [], status := SyncStatus.default }

def stBusy : EngineState :=
  { files := [], sync_log := [],
    status := { SyncStatus.default with is_syncing := true } }

def stFive : EngineState :=
  { files := [], sync_log := [],
    status := { SyncStatus.default with files_uploaded := 5 } }

def entryNotes : LocalEntry :=
  { relative_path := "notes.txt", hash := "hn", size := 5, modified := 60 }

def entryHidden : LocalEntry :=
  { relative_path := ".hidden", hash := "hh", size := 1, modified := 1 }

def itemDot : DriveItem :=
  { id := "R9", name := ".secret", last_modified := "t", size := some 1,
    file := true, folder := false }

/-- A cycle whose remote listing fails with a network error and whose
single local file uploads successfully. -/
def cenvScanFail : CycleEnv :=
  { local_scan := .ok [entryNotes], remote_listing := .error "network error",
    exec_envs := fun _ => envOK, now := 200 }

/-- A cycle that uploads one new local file successfully. -/
def cenvUploadOne : CycleEnv :=
  { local_scan := .ok [entryNotes], remote_listing := .ok [],
    exec_envs := fun _ => envOK, now := 200 }

def itemX : DriveItem :=
  { id := "R1", name := "x.bin", last_modified := "2024-01-01T00:00:00Z",
    size := some 16, file := true, folder := false }

def localRecChanged : FileRecord :=
  { path := "x.bin", hash := "h2", size := 17, modified := 50,
    onedrive_id := none, last_synced := 0 }

def localRecSame : FileRecord :=
  { path := "x.bin", hash := "h1", size := 16, modified := 40,
    onedrive_id := none, last_synced := 0 }

def storedRec : FileRecord :=
  { path := "x.bin", hash := "h1", size := 16, modified := 40,
    onedrive_id := some "R1", last_synced := 100 }

def recA : FileRecord :=
  { path := "a", hash := "ha", size := 1, modified := 1,
    onedrive_id := none, last_synced := 0 }

def recB : FileRecord :=
  { path := "b", hash := "hb", size := 1, modified := 1,
    onedrive_id := none, last_synced := 0 }

/- ### Association-list map lemmas -/

theorem mem_of_mapGet_eq_some {α : Type} {m : List (String × α)}
    {k : String} {v : α} (h : mapGet m k = some v) : (k, v) ∈ m := by
  induction m with
  | nil => simp [mapGet] at h
  | cons kv rest ih =>
      obtain ⟨k2, v2⟩ := kv
      by_cases hk : k2 = k
      · subst hk
        simp [mapGet] at h
        simp [h]
      · simp [mapGet, hk] at h
        exact List.mem_cons_of_mem _ (ih h)

theorem mapGet_isSome_of_mem {α : Type} {m : List (String × α)}
    {k : String} {v : α} (h : (k, v) ∈ m) : (mapGet m k).isSome := by
  induction m with
  | nil => simp at h
  | cons kv rest ih =>
      obtain ⟨k2, v2⟩ := kv
      rcases List.mem_cons.mp h with h1 | h1
      · injection h1 with hk hv
        subst hk
        simp [mapGet]
      · by_cases hk : k2 = k
        · simp [mapGet, hk]
        · simp [mapGet, hk]
          exact ih h1

theorem not_mem_of_mapGet_eq_none {α : Type} {m : List (String × α)}
    {k : String} {v : α} (h : mapGet m k = none) : (k, v) ∉ m := by
  intro hm
  have := mapGet_isSome_of_mem hm
  rw [h] at this
  simp at this

theorem mapGet_eq_of_mem_nodup {α : Type} {m : List (String × α)}
    {k : String} {v : α} (hn : (m.map Prod.fst).Nodup) (h : (k, v) ∈ m) :
    mapGet m k = some v := by
  induction m with
  | nil => simp at h
  | cons kv rest ih =>
      obtain ⟨k2, v2⟩ := kv
      simp only [List.map_cons, List.nodup_cons] at hn
      rcases List.mem_cons.mp h with h1 | h1
      · injection h1 with hk hv
        subst hk hv
        simp [mapGet]
      · by_cases hk : k2 = k
        · subst hk
          exact absurd (List.mem_map_of_mem Prod.fst h1) hn.1
        · simp [mapGet, hk]
          exact ih hn.2 h1

/- ### Planner shape lemmas -/

theorem upload_checks_shape {L : List (String × FileRecord)}
    {R : List (String × DriveItem)} {S : List (String × FileRecord)}
    {a : SyncAction} (h : a ∈ upload_checks L R S) :
    ∃ q f, (q, f) ∈ L ∧ a = SyncAction.upload q q := by
  simp only [upload_checks, List.mem_filterMap] at h
  obtain ⟨⟨q, f⟩, hq, hf⟩ := h
  refine ⟨q, f, hq, ?_⟩
  split at hf
  · split at hf
    · exact (Option.some.inj hf).symm
    · simp at hf
  · split at hf
    · simp at hf
    · exact (Option.some.inj hf).symm

theorem download_checks_shape {now : Nat} {L : List (String × FileRecord)}
    {R : List (String × DriveItem)} {S : List (String × FileRecord)}
    {a : SyncAction} (h : a ∈ download_checks now L R S) :
    ∃ q ri, (q, ri) ∈ R ∧ a = SyncAction.download ri q := by
  simp only [download_checks, List.mem_filterMap] at h
  obtain ⟨⟨q, ri⟩, hq, hf⟩ := h
  refine ⟨q, ri, hq, ?_⟩
  split at hf
  · split at hf
    · split at hf
      · exact (Option.some.inj hf).symm
      · simp at hf
    · simp at hf
  · exact (Option.some.inj hf).symm

theorem cleanup_checks_shape {L : List (String × FileRecord)}
    {R : List (String × DriveItem)} {S : List (String × FileRecord)}
    {a : SyncAction} (h : a ∈ cleanup_checks L R S) :
    ∃ q f, (q, f) ∈ S ∧ a = SyncAction.removeFromDatabase q ∧
      contains_key L q = false ∧ contains_key R q = false := by
  simp only [cleanup_checks, List.mem_filterMap] at h
  obtain ⟨⟨q, f⟩, hq, hf⟩ := h
  split at hf
  · rename_i hcond
    simp only [Bool.and_eq_true, Bool.not_eq_true'] at hcond
    exact ⟨q, f, hq, (Option.some.inj hf).symm, hcond.1, hcond.2⟩
  · simp at hf

/- ### Action-loop lemmas -/

theorem run_actions_sync_log (envs : Nat → ExecEnv) (total : Nat) :
    ∀ (acts : List SyncAction) (i : Nat) (st : EngineState),
      (run_actions envs total i st acts).sync_log =
        st.sync_log ++ logRows envs i acts := by
  intro acts
  induction acts with
  | nil => intro i st; simp [run_actions, logRows]
  | cons a rest ih =>
      intro i st
      cases a with
      | upload lp rp =>
          rcases h : (envs i).api_result with e | u
          · simp [run_actions, execute_sync_action, h, logRows, setOp, ih]
          · simp [run_actions, execute_sync_action, h, logRows, setOp,
              log_sync_event, ih]
      | download ri lp =>
          rcases h : (envs i).api_result with e | u
          · simp [run_actions, execute_sync_action, h, logRows, setOp, ih]
          · simp [run_actions, execute_sync_action, h, logRows, setOp,
              log_sync_event, ih]
      | removeFromDatabase p =>
          rcases h : (envs i).api_result with e | u <;>
            simp [run_actions, execute_sync_action, h, logRows, setOp,
              log_sync_event, ih]

theorem run_actions_sync_errors (envs : Nat → ExecEnv) (total : Nat) :
    ∀ (acts : List SyncAction) (i : Nat) (st : EngineState),
      (run_actions envs total i st acts).status.sync_errors =
        st.status.sync_errors ++ errList envs i acts := by
  intro acts
  induction acts with
  | nil => intro i st; simp [run_actions, errList]
  | cons a rest ih =>
      intro i st
      cases a with
      | upload lp rp =>
          rcases h : (envs i).api_result with e | u
          · simp [run_actions, execute_sync_action, h, errList, setOp, ih]
          · simp [run_actions, execute_sync_action, h, errList, setOp,
              log_sync_event, ih]
      | download ri lp =>
          rcases h : (envs i).api_result with e | u
          · simp [run_actions, execute_sync_action, h, errList, setOp, ih]
          · simp [run_actions, execute_sync_action, h, errList, setOp,
              log_sync_event, ih]
      | removeFromDatabase p =>
          rcases h : (envs i).api_result with e | u <;>
            simp [run_actions, execute_sync_action, h, errList, setOp,
              log_sync_event, ih]

theorem run_actions_files_uploaded (envs : Nat → ExecEnv) (total : Nat) :
    ∀ (acts : List SyncAction) (i : Nat) (st : EngineState),
      (run_actions envs total i st acts).status.files_uploaded =
        st.status.files_uploaded + count_succ isUpload envs i acts := by
  intro acts
  induction acts with
  | nil => intro i st; simp [run_actions, count_succ]
  | cons a rest ih =>
      intro i st
      cases a with
      | upload lp rp =>
          rcases h : (envs i).api_result with e | u
          · simp [run_actions, execute_sync_action, h, count_succ, setOp,
              log_sync_event, isUpload, action_succeeds, ih]
          · simp [run_actions, execute_sync_action, h, count_succ, setOp,
              log_sync_event, isUpload, action_succeeds, ih]
            omega
      | download ri lp =>
          rcases h : (envs i).api_result with e | u <;>
            simp [run_actions, execute_sync_action, h, count_succ, setOp,
              log_sync_event, isUpload, action_succeeds, ih]
      | removeFromDatabase p =>
          rcases h : (envs i).api_result with e | u <;>
            simp [run_actions, execute_sync_action, h, count_succ, setOp,
              log_sync_event, isUpload, action_succeeds, ih]

theorem run_actions_files_downloaded (envs : Nat → ExecEnv) (total : Nat) :
    ∀ (acts : List SyncAction) (i : Nat) (st : EngineState),
      (run_actions envs total i st acts).status.files_downloaded =
        st.status.files_downloaded + count_succ isDownload envs i acts := by
  intro acts
  induction acts with
  | nil => intro i st; simp [run_actions, count_succ]
  | cons a rest ih =>
      intro i st
      cases a with
      | upload lp rp =>
          rcases h : (envs i).api_result with e | u <;>
            simp [run_actions, execute_sync_action, h, count_succ, setOp,
              log_sync_event, isDownload, action_succeeds, ih]
      | download ri lp =>
          rcases h : (envs i).api_result with e | u
          · simp [run_actions, execute_sync_action, h, count_succ, setOp,
              log_sync_event, isDownload, action_succeeds, ih]
          · simp [run_actions, execute_sync_action, h, count_succ, setOp,
              log_sync_event, isDownload, action_succeeds, ih]
            omega
      | removeFromDatabase p =>
          rcases h : (envs i).api_result with e | u <;>
            simp [run_actions, execute_sync_action, h, count_succ, setOp,
              log_sync_event, isDownload, action_succeeds, ih]

theorem run_actions_files_deleted (envs : Nat → ExecEnv) (total : Nat) :
    ∀ (acts : List SyncAction) (i : Nat) (st : EngineState),
      (run_actions envs total i st acts).status.files_deleted =
        st.status.files_deleted + count_succ isRemove envs i acts := by
  intro acts
  induction acts with
  | nil => intro i st; simp [run_actions, count_succ]
  | cons a rest ih =>
      intro i st
      cases a with
      | upload lp rp =>
          rcases h : (envs i).api_result with e | u <;>
            simp [run_actions, execute_sync_action, h, count_succ, setOp,
              log_sync_event, isRemove, action_succeeds, ih]
      | download ri lp =>
          rcases h : (envs i).api_result with e | u <;>
            simp [run_actions, execute_sync_action, h, count_succ, setOp,
              log_sync_event, isRemove, action_succeeds, ih]
      | removeFromDatabase p =>
          rcases h : (envs i).api_result with e | u
          · simp [run_actions, execute_sync_action, h, count_succ, setOp,
              log_sync_event, isRemove, action_succeeds, ih]
            omega
          · simp [run_actions, execute_sync_action, h, count_succ, setOp,
              log_sync_event, isRemove, action_succeeds, ih]
            omega

theorem upsertRecord_keys {m : List (String × FileRecord)} {k : String}
    {r : FileRecord} {q : String}
    (h : q ∈ (upsertRecord m k r).map Prod.fst) :
    q ∈ m.map Prod.fst ∨ q = k := by
  unfold upsertRecord at h
  split at h
  · obtain ⟨kv, hkv, hq⟩ := List.mem_map.mp h
    obtain ⟨kv2, hkv2, he⟩ := List.mem_map.mp hkv
    by_cases hk : kv2.1 = k
    · right
      rw [← hq, ← he]
      simp [hk]
    · left
      rw [← hq, ← he]
      simp [hk]
      exact ⟨kv2.2, hkv2⟩
  · rw [List.map_append] at h
    rcases List.mem_append.mp h with h | h
    · exact Or.inl h
    · right
      simpa using h

theorem deleteRecord_keys {m : List (String × FileRecord)} {k : String}
    {q : String} (h : q ∈ (deleteRecord m k).map Prod.fst) :
    q ∈ m.map Prod.fst := by
  unfold deleteRecord at h
  obtain ⟨kv, hkv, hq⟩ := List.mem_map.mp h
  exact hq ▸ List.mem_map_of_mem _ (List.mem_of_mem_filter hkv)

theorem run_actions_files_keys (envs : Nat → ExecEnv) (total : Nat) :
    ∀ (acts : List SyncAction) (i : Nat) (st : EngineState) (q : String),
      q ∈ (run_actions envs total i st acts).files.map Prod.fst →
      q ∈ st.files.map Prod.fst ∨ ∃ a ∈ acts, q = actionPath a := by
  intro acts
  induction acts with
  | nil =>
      intro i st q h
      exact Or.inl (by simpa [run_actions] using h)
  | cons a rest ih =>
      intro i st q h
      have step : ∀ st2 : EngineState,
          (st2.files = st.files ∨
            ∃ r2, st2.files = upsertRecord st.files (actionPath a) r2 ∨
              st2.files = deleteRecord st.files (actionPath a)) →
          q ∈ st2.files.map Prod.fst →
          q ∈ st.files.map Prod.fst ∨ q = actionPath a := by
        intro st2 hst2 hq
        rcases hst2 with hsame | ⟨r2, hup | hdel⟩
        · exact Or.inl (hsame ▸ hq)
        · exact upsertRecord_keys (hup ▸ hq)
        · exact Or.inl (deleteRecord_keys (hdel ▸ hq))
      cases a with
      | upload lp rp =>
          rcases hapi : (envs i).api_result with e | u
          · simp only [run_actions, execute_sync_action, hapi, setOp] at h
            rcases ih _ _ _ h with h1 | ⟨a2, ha2, hq2⟩
            · exact Or.inl h1
            · exact Or.inr ⟨a2, List.mem_cons_of_mem _ ha2, hq2⟩
          · simp only [run_actions, execute_sync_action, hapi, setOp,
              log_sync_event] at h
            rcases ih _ _ _ h with h1 | ⟨a2, ha2, hq2⟩
            · rcases upsertRecord_keys h1 with h2 | h2
              · exact Or.inl h2
              · exact Or.inr ⟨SyncAction.upload lp rp,
                  List.mem_cons_self _ _, by simpa [actionPath] using h2⟩
            · exact Or.inr ⟨a2, List.mem_cons_of_mem _ ha2, hq2⟩
      | download ri lp =>
          rcases hapi : (envs i).api_result with e | u
          · simp only [run_actions, execute_sync_action, hapi, setOp] at h
            rcases ih _ _ _ h with h1 | ⟨a2, ha2, hq2⟩
            · exact Or.inl h1
            · exact Or.inr ⟨a2, List.mem_cons_of_mem _ ha2, hq2⟩
          · simp only [run_actions, execute_sync_action, hapi, setOp,
              log_sync_event] at h
            rcases ih _ _ _ h with h1 | ⟨a2, ha2, hq2⟩
            · rcases upsertRecord_keys h1 with h2 | h2
              · exact Or.inl h2
              · exact Or.inr ⟨SyncAction.download ri lp,
                  List.mem_cons_self _ _, by simpa [actionPath] using h2⟩
            · exact Or.inr ⟨a2, List.mem_cons_of_mem _ ha2, hq2⟩
      | removeFromDatabase p =>
          simp only [run_actions, execute_sync_action, setOp,
            log_sync_event] at h
          rcases ih _ _ _ h with h1 | ⟨a2, ha2, hq2⟩
          · exact Or.inl (deleteRecord_keys h1)
          · exact Or.inr ⟨a2, List.mem_cons_of_mem _ ha2, hq2⟩

theorem logRows_action (envs : Nat → ExecEnv) :
    ∀ (acts : List SyncAction) (i : Nat) (r : SyncLogEntry),
      r ∈ logRows envs i acts →
      r.action = "upload" ∨ r.action = "download" ∨
        r.action = "remove_from_db" := by
  intro acts
  induction acts with
  | nil => intro i r h; simp [logRows] at h
  | cons a rest ih =>
      intro i r h
      simp only [logRows] at h
      rcases List.mem_append.mp h with h1 | h1
      · cases a <;> rcases hapi : (envs i).api_result with e | u <;>
          rw [hapi] at h1 <;> simp at h1 <;> simp [h1]
      · exact ih _ _ h1

theorem logRows_file_path (envs : Nat → ExecEnv) :
    ∀ (acts : List SyncAction) (i : Nat) (r : SyncLogEntry),
      r ∈ logRows envs i acts →
      ∃ a ∈ acts, r.file_path = actionPath a := by
  intro acts
  induction acts with
  | nil => intro i r h; simp [logRows] at h
  | cons a rest ih =>
      intro i r h
      simp only [logRows] at h
      rcases List.mem_append.mp h with h1 | h1
      · refine ⟨a, List.mem_cons_self _ _, ?_⟩
        cases a <;> rcases hapi : (envs i).api_result with e | u <;>
          rw [hapi] at h1 <;> simp at h1 <;> simp [h1, actionPath]
      · obtain ⟨a2, ha2, hr⟩ := ih _ _ h1
        exact ⟨a2, List.mem_cons_of_mem _ ha2, hr⟩

theorem errList_of_all_ok (envs : Nat → ExecEnv)
    (h : ∀ i, (envs i).api_result = Except.ok ()) :
    ∀ (acts : List SyncAction) (i : Nat), errList envs i acts = [] := by
  intro acts
  induction acts with
  | nil => intro i; simp [errList]
  | cons a rest ih =>
      intro i
      cases a <;> simp [errList, h i, ih]

theorem pairwise_le_of_const {l : List Nat} {c : Nat} (h : ∀ x ∈ l, x = c) :
    l.Pairwise (fun x y => x ≤ y) := by
  induction l with
  | nil => exact List.Pairwise.nil
  | cons x rest ih =>
      refine List.Pairwise.cons ?_ (ih fun y hy => h y (List.mem_cons_of_mem _ hy))
      intro y hy
      rw [h x (List.mem_cons_self x rest), h y (List.mem_cons_of_mem _ hy)]

/- ### C1 — conflict handling -/

/-- C1 counterexample: `x.bin` is in all three snapshots, its local hash
differs from the catalog hash, and the parsed remote modification time
(the placeholder parser yields the cycle clock, 101) exceeds the
catalog's `last_synced` (100) — yet the planner's output *does* contain
`Download(x.bin)`, refuting the claimed local-wins suppression. -/
theorem conflict_also_plans_download :
    localRecChanged.hash ≠ storedRec.hash ∧
    (parse_iso_datetime 101 itemX.last_modified).getD 0 >
      storedRec.last_synced ∧
    SyncAction.download itemX "x.bin" ∈
      determine_sync_actions 101 [("x.bin", localRecChanged)]
        [("x.bin", itemX)] [("x.bin", storedRec)] := by
  decide

/-- C1 amended: for a path present in all three snapshots whose local
hash differs from the catalog hash and whose parsed remote modification
time exceeds the catalog's `last_synced`, the planner emits
`Upload(path)` **and also** `Download(path)`: the upload and download
rules fire independently, and since downloads execute after uploads the
remote content wins the conflict. -/
theorem conflict_plans_upload_and_download (now : Nat)
    (L : List (String × FileRecord)) (R : List (String × DriveItem))
    (S : List (String × FileRecord)) (p : String)
    (lf sf : FileRecord) (rf : DriveItem)
    (hl : mapGet L p = some lf) (hr : mapGet R p = some rf)
    (hs : mapGet S p = some sf) (hhash : lf.hash ≠ sf.hash)
    (hm : now > sf.last_synced) :
    SyncAction.upload p p ∈ determine_sync_actions now L R S ∧
    SyncAction.download rf p ∈ determine_sync_actions now L R S := by
  constructor
  · simp only [determine_sync_actions]
    refine List.mem_append.mpr (Or.inl (List.mem_append.mpr (Or.inl ?_)))
    simp only [upload_checks]
    refine List.mem_filterMap.mpr ⟨(p, lf), mem_of_mapGet_eq_some hl, ?_⟩
    simp [hs, hhash]
  · simp only [determine_sync_actions]
    refine List.mem_append.mpr (Or.inl (List.mem_append.mpr (Or.inr ?_)))
    simp only [download_checks]
    refine List.mem_filterMap.mpr ⟨(p, rf), mem_of_mapGet_eq_some hr, ?_⟩
    simp [contains_key, hl, hs, parse_iso_datetime, hm]

/-- C1 witness: the amended theorem at the concrete conflict input. -/
theorem conflict_plans_upload_and_download_witness :
    SyncAction.upload "x.bin" "x.bin" ∈
      determine_sync_actions 101 [("x.bin", localRecChanged)]
        [("x.bin", itemX)] [("x.bin", storedRec)] ∧
    SyncAction.download itemX "x.bin" ∈
      determine_sync_actions 101 [("x.bin", localRecChanged)]
        [("x.bin", itemX)] [("x.bin", storedRec)] :=
  conflict_plans_upload_and_download 101 _ _ _ "x.bin" localRecChanged
    storedRec itemX (by decide) (by decide) (by decide) (by decide) (by decide)

/- ### C2 — idempotence of consecutive cycles -/

/-- C2: the claimed idempotence fails on the code.  State after a clean
cycle at time 100: `x.bin` is on both sides with the catalog hash, and
`last_synced = 100`.  A second cycle at time 101 (no external change)
plans a spurious `Download(x.bin)`, because `parse_iso_datetime` ignores
its argument and returns the current time, and `101 > 100`. -/
theorem second_cycle_plans_spurious_download :
    determine_sync_actions 101 [("x.bin", localRecSame)] [("x.bin", itemX)]
      [("x.bin", storedRec)] = [SyncAction.download itemX "x.bin"] := by
  decide

/- ### C3 — the local-present / remote-lost / cataloged row -/

/-- C3 counterexample: `x.bin` is in the local snapshot and the catalog
with **equal** hashes and absent from the remote snapshot, and the
planner emits no action at all — refuting "Upload(path) regardless of
whether the local hash equals the catalog hash". -/
theorem remote_lost_equal_hash_no_action :
    localRecSame.hash = storedRec.hash ∧
    determine_sync_actions 0 [("x.bin", localRecSame)] []
      [("x.bin", storedRec)] = [] := by
  decide

/-- C3 amended: for a path present in the local snapshot and the catalog
but absent from the remote snapshot, the planner emits `Upload(path)`
exactly when the local hash differs from the catalog hash; when the
hashes are equal it plans nothing at all for that path. -/
theorem remote_lost_upload_iff_hash_changed (now : Nat)
    (L : List (String × FileRecord)) (R : List (String × DriveItem))
    (S : List (String × FileRecord)) (p : String) (lf sf : FileRecord)
    (hnod : (L.map Prod.fst).Nodup)
    (hl : mapGet L p = some lf) (hs : mapGet S p = some sf)
    (hr : mapGet R p = none) :
    (lf.hash ≠ sf.hash →
      SyncAction.upload p p ∈ determine_sync_actions now L R S) ∧
    (lf.hash = sf.hash →
      ∀ a ∈ determine_sync_actions now L R S, actionPath a ≠ p) := by
  constructor
  · intro hne
    simp only [determine_sync_actions]
    refine List.mem_append.mpr (Or.inl (List.mem_append.mpr (Or.inl ?_)))
    simp only [upload_checks]
    refine List.mem_filterMap.mpr ⟨(p, lf), mem_of_mapGet_eq_some hl, ?_⟩
    simp [hs, hne]
  · intro heq a ha hpa
    simp only [determine_sync_actions] at ha
    rcases List.mem_append.mp ha with h12 | h3
    · rcases List.mem_append.mp h12 with h1 | h2
      · -- an upload for p is impossible: the hashes agree
        simp only [upload_checks, List.mem_filterMap] at h1
        obtain ⟨⟨q, f⟩, hqL, hf⟩ := h1
        have haq : a = SyncAction.upload q q := by
          split at hf
          · split at hf
            · exact (Option.some.inj hf).symm
            · simp at hf
          · split at hf
            · simp at hf
            · exact (Option.some.inj hf).symm
        have hqp : q = p := by rw [haq] at hpa; exact hpa
        subst hqp
        have hfl : f = lf := by
          have h2 := mapGet_eq_of_mem_nodup hnod hqL
          rw [hl] at h2
          exact (Option.some.inj h2).symm
        subst hfl
        rw [hs] at hf
        simp [heq] at hf
      · -- a download for p is impossible: p is not a remote key
        obtain ⟨q, ri, hqR, haq⟩ := download_checks_shape h2
        have hqp : q = p := by rw [haq] at hpa; exact hpa
        subst hqp
        exact not_mem_of_mapGet_eq_none hr hqR
    · -- a cleanup for p is impossible: p is a local key
      obtain ⟨q, f, _, haq, hcl, _⟩ := cleanup_checks_shape h3
      have hqp : q = p := by rw [haq] at hpa; exact hpa
      subst hqp
      rw [contains_key, hl] at hcl
      simp at hcl

/-- C3 witness: the amended theorem at a concrete changed-hash input. -/
theorem remote_lost_upload_iff_hash_changed_witness :
    SyncAction.upload "x.bin" "x.bin" ∈
      determine_sync_actions 0 [("x.bin", localRecChanged)] []
        [("x.bin", storedRec)] :=
  (remote_lost_upload_iff_hash_changed 0 _ _ _ "x.bin" localRecChanged
    storedRec (by decide) (by decide) (by decide) (by decide)).1 (by decide)

/- ### C7 — ordering of the planner's output -/

/-- C7 counterexample: with two new local files iterated as `b` then `a`
(a hash map iterates in no particular order), the planner emits
`Upload(b)` before `Upload(a)` although path `a` sorts before path `b`
(witnessed on the underlying character lists) — so the actions inside
the upload group are not ordered by path. -/
theorem plan_order_not_path_sorted :
    determine_sync_actions 0 [("b", recB), ("a", recA)] [] [] =
      [SyncAction.upload "b" "b", SyncAction.upload "a" "a"] ∧
    ("b" : String).data = ['b'] ∧ ("a" : String).data = ['a'] ∧
    ('a' : Char) < 'b' := by
  decide

/-- C7 amended: the planner's output places all uploads first, then all
downloads, then all catalog cleanups — the groups are in that order for
every input — but inside each group the actions follow the snapshot
map's iteration order, which is not sorted by path. -/
theorem plan_kind_groups_ordered (now : Nat)
    (L : List (String × FileRecord)) (R : List (String × DriveItem))
    (S : List (String × FileRecord)) :
    ((determine_sync_actions now L R S).map kindRank).Pairwise
      (fun x y => x ≤ y) := by
  have h1 : ∀ x ∈ (upload_checks L R S).map kindRank, x = 0 := by
    intro x hx
    obtain ⟨a, ha, hax⟩ := List.mem_map.mp hx
    obtain ⟨q, f, _, rfl⟩ := upload_checks_shape ha
    simpa [kindRank] using hax.symm
  have h2 : ∀ x ∈ (download_checks now L R S).map kindRank, x = 1 := by
    intro x hx
    obtain ⟨a, ha, hax⟩ := List.mem_map.mp hx
    obtain ⟨q, ri, _, rfl⟩ := download_checks_shape ha
    simpa [kindRank] using hax.symm
  have h3 : ∀ x ∈ (cleanup_checks L R S).map kindRank, x = 2 := by
    intro x hx
    obtain ⟨a, ha, hax⟩ := List.mem_map.mp hx
    obtain ⟨q, f, _, rfl, _, _⟩ := cleanup_checks_shape ha
    simpa [kindRank] using hax.symm
  simp only [determine_sync_actions, List.map_append]
  rw [List.pairwise_append]
  refine ⟨?_, pairwise_le_of_const h3, ?_⟩
  · rw [List.pairwise_append]
    refine ⟨pairwise_le_of_const h1, pairwise_le_of_const h2, ?_⟩
    intro x hx y hy
    rw [h1 x hx]
    exact Nat.zero_le _
  · intro x hx y hy
    rw [h3 y hy]
    rcases List.mem_append.mp hx with h | h
    · rw [h1 x h]
      omega
    · rw [h2 x h]
      omega

/- ### C4 — transient remote scan failure -/

/-- C4 counterexample: with a failing remote listing, the cycle completes
(`ok`) using an empty remote snapshot — but the cycle's `sync_errors`
stays empty: no string mentioning the scan failure is recorded (the code
only writes it to the tracing log, sync.rs line 359). -/
theorem remote_scan_failure_error_not_recorded :
    scan_remote_files cenvScanFail.remote_listing = [] ∧
    (perform_sync cenvScanFail st0).1.status.sync_errors = [] ∧
    (sync cenvScanFail st0).1.status.sync_errors = [] ∧
    (sync cenvScanFail st0).2 = Except.ok () := by
  refine ⟨rfl, ?_, ?_, rfl⟩ <;> decide

/-- C4 amended: if the remote listing fails the cycle still completes
using an empty remote snapshot: the plan contains no Download at all,
each ForgetCatalog targets a cataloged path (so never a path that only
existed remotely), local files absent from the catalog still produce
Upload actions — but the cycle's errors sequence does **not** record the
scan failure (here: it stays exactly as before when every planned action
succeeds). -/
theorem remote_scan_failure_cycle (env : CycleEnv) (st : EngineState)
    (e : String) (entries : List LocalEntry)
    (hre : env.remote_listing = Except.error e)
    (hle : env.local_scan = Except.ok entries)
    (hok : ∀ i, (env.exec_envs i).api_result = Except.ok ()) :
    (∀ a ∈ cyclePlan env st, isDownload a = false) ∧
    (∀ p lf, mapGet (scan_local_files entries) p = some lf →
      mapGet st.files p = none →
      SyncAction.upload p p ∈ cyclePlan env st) ∧
    (∀ a ∈ cyclePlan env st, isRemove a = true →
      contains_key st.files (actionPath a) = true) ∧
    (perform_sync env st).2 = Except.ok () ∧
    (perform_sync env st).1.status.sync_errors = st.status.sync_errors := by
  have hplan : cyclePlan env st = determine_sync_actions env.now
      (scan_local_files entries) [] st.files := by
    simp [cyclePlan, hle, hre, scan_remote_files]
  refine ⟨?_, ?_, ?_, ?_, ?_⟩
  · intro a ha
    rw [hplan] at ha
    simp only [determine_sync_actions] at ha
    rcases List.mem_append.mp ha with h12 | h3
    · rcases List.mem_append.mp h12 with h1 | h2
      · obtain ⟨q, f, _, rfl⟩ := upload_checks_shape h1
        rfl
      · obtain ⟨q, ri, hmem, _⟩ := download_checks_shape h2
        simp at hmem
    · obtain ⟨q, f, _, rfl, _, _⟩ := cleanup_checks_shape h3
      rfl
  · intro p lf hpl hpn
    rw [hplan]
    simp only [determine_sync_actions]
    refine List.mem_append.mpr (Or.inl (List.mem_append.mpr (Or.inl ?_)))
    simp only [upload_checks]
    refine List.mem_filterMap.mpr ⟨(p, lf), mem_of_mapGet_eq_some hpl, ?_⟩
    simp [hpn, contains_key, mapGet]
  · intro a ha hrm
    rw [hplan] at ha
    simp only [determine_sync_actions] at ha
    rcases List.mem_append.mp ha with h12 | h3
    · rcases List.mem_append.mp h12 with h1 | h2
      · obtain ⟨q, f, _, rfl⟩ := upload_checks_shape h1
        simp [isRemove] at hrm
      · obtain ⟨q, ri, hmem, _⟩ := download_checks_shape h2
        simp at hmem
    · obtain ⟨q, f, hmem, rfl, _, _⟩ := cleanup_checks_shape h3
      simp only [actionPath, contains_key]
      exact mapGet_isSome_of_mem hmem
  · simp only [perform_sync, hle]
    split <;> rfl
  · simp only [perform_sync, hle]
    split
    · simp [setOp]
    · rw [run_actions_sync_errors,
        errList_of_all_ok env.exec_envs hok]
      simp [setOp]

/-- C4 witness: the amended theorem at the concrete failing-scan cycle. -/
theorem remote_scan_failure_cycle_witness :
    (perform_sync cenvScanFail st0).2 = Except.ok () :=
  (remote_scan_failure_cycle cenvScanFail st0 "network error" [entryNotes]
    rfl rfl (fun _ => rfl)).2.2.2.1

/- ### C5 — per-action failure isolation -/

/-- C5 counterexample: a single failing upload pushes its error and
leaves the catalog untouched, but appends **no** audit row at all — in
particular no row with status `failed`, refuting that part of the claim. -/
theorem failed_action_writes_no_log_row :
    (run_actions (fun _ => envFail) 1 0 st0
        [SyncAction.upload "f.txt" "f.txt"]).sync_log = [] ∧
    (run_actions (fun _ => envFail) 1 0 st0
        [SyncAction.upload "f.txt" "f.txt"]).status.sync_errors = ["boom"] ∧
    (run_actions (fun _ => envFail) 1 0 st0
        [SyncAction.upload "f.txt" "f.txt"]).files = [] := by
  decide

/-- C5 amended: a failing transfer action is isolated — its error text is
appended to `sync_errors`, the executor proceeds with the remaining
actions, and the catalog, the audit log, and every counter are left
unchanged by the failed action; however no audit row (in particular no
`failed` row) is written for it. -/
theorem failed_action_isolated (envs : Nat → ExecEnv) (total i : Nat)
    (st : EngineState) (a : SyncAction) (rest : List SyncAction) (e : String)
    (hfail : (envs i).api_result = Except.error e)
    (hnr : isRemove a = false) :
    ∃ st2, run_actions envs total i st (a :: rest) =
        run_actions envs total (i + 1) st2 rest ∧
      st2.files = st.files ∧
      st2.sync_log = st.sync_log ∧
      st2.status.sync_errors = st.status.sync_errors ++ [e] ∧
      st2.status.files_uploaded = st.status.files_uploaded ∧
      st2.status.files_downloaded = st.status.files_downloaded ∧
      st2.status.files_deleted = st.status.files_deleted := by
  cases a with
  | upload lp rp =>
      refine ⟨{ st with status := { st.status with
          current_operation := operation_desc (SyncAction.upload lp rp),
          sync_progress := 1/2 + (2/5) * ((i : ℚ) / (total : ℚ)),
          sync_errors := st.status.sync_errors ++ [e] } },
        ?_, rfl, rfl, rfl, rfl, rfl, rfl⟩
      simp [run_actions, execute_sync_action, hfail, setOp]
  | download ri lp =>
      refine ⟨{ st with status := { st.status with
          current_operation := operation_desc (SyncAction.download ri lp),
          sync_progress := 1/2 + (2/5) * ((i : ℚ) / (total : ℚ)),
          sync_errors := st.status.sync_errors ++ [e] } },
        ?_, rfl, rfl, rfl, rfl, rfl, rfl⟩
      simp [run_actions, execute_sync_action, hfail, setOp]
  | removeFromDatabase p => simp [isRemove] at hnr

/-- C5 witness: the amended theorem at the concrete failing upload. -/
theorem failed_action_isolated_witness :
    ∃ st2, run_actions (fun _ => envFail) 1 0 st0
        [SyncAction.upload "f.txt" "f.txt"] =
      run_actions (fun _ => envFail) 1 (0 + 1) st2 [] ∧
      st2.files = st0.files ∧
      st2.sync_log = st0.sync_log ∧
      st2.status.sync_errors = st0.status.sync_errors ++ ["boom"] ∧
      st2.status.files_uploaded = st0.status.files_uploaded ∧
      st2.status.files_downloaded = st0.status.files_downloaded ∧
      st2.status.files_deleted = st0.status.files_deleted :=
  failed_action_isolated (fun _ => envFail) 1 0 st0
    (SyncAction.upload "f.txt" "f.txt") [] "boom" rfl rfl

/- ### C6 — hidden-file filter -/

/-- C6 counterexample: a remote file named `.secret` passes through the
remote scanner unfiltered and the planner schedules `Download(.secret)` —
a dotted path appears in a planned action, refuting the claim for paths
of remote origin. -/
theorem hidden_remote_file_not_filtered :
    scan_remote_files (.ok [RemoteNode.mk itemDot []]) =
      [(".secret", itemDot)] ∧
    determine_sync_actions 0 [] [(".secret", itemDot)] [] =
      [SyncAction.download itemDot ".secret"] ∧
    starts_with_dot ".secret" = true := by
  decide

/-- C6 amended: the hidden-file filter exists only in the local scanner:
no path whose leading segment begins with `.` ever enters the local
snapshot, and when the remote snapshot and the catalog are free of dotted
paths, every planned action path, every catalog key after the action
loop, and every audit row path stays free of dotted paths.  Dotted paths
of remote origin are not filtered (see the counterexample). -/
theorem hidden_filter_local_only (now : Nat) (entries : List LocalEntry)
    (R : List (String × DriveItem)) (envs : Nat → ExecEnv)
    (total i : Nat) (st : EngineState)
    (hR : ∀ q ∈ R.map Prod.fst, starts_with_dot q = false)
    (hC : ∀ q ∈ st.files.map Prod.fst, starts_with_dot q = false)
    (hLg : ∀ r ∈ st.sync_log, starts_with_dot r.file_path = false) :
    (∀ p ∈ (scan_local_files entries).map Prod.fst,
        starts_with_dot p = false) ∧
    (∀ a ∈ determine_sync_actions now (scan_local_files entries) R st.files,
        starts_with_dot (actionPath a) = false) ∧
    (∀ q ∈ (run_actions envs total i st (determine_sync_actions now
        (scan_local_files entries) R st.files)).files.map Prod.fst,
        starts_with_dot q = false) ∧
    (∀ r ∈ (run_actions envs total i st (determine_sync_actions now
        (scan_local_files entries) R st.files)).sync_log,
        starts_with_dot r.file_path = false) := by
  have hLoc : ∀ p ∈ (scan_local_files entries).map Prod.fst,
      starts_with_dot p = false := by
    intro p hp
    obtain ⟨pair, hpair, hp1⟩ := List.mem_map.mp hp
    simp only [scan_local_files, List.mem_filterMap] at hpair
    obtain ⟨en, _, hf⟩ := hpair
    split at hf
    · simp at hf
    · rename_i hcond
      rw [← hp1, ← (Option.some.inj hf)]
      simpa using hcond
  have hPlan : ∀ a ∈ determine_sync_actions now (scan_local_files entries)
      R st.files, starts_with_dot (actionPath a) = false := by
    intro a ha
    simp only [determine_sync_actions] at ha
    rcases List.mem_append.mp ha with h12 | h3
    · rcases List.mem_append.mp h12 with h1 | h2
      · obtain ⟨q, f, hq, rfl⟩ := upload_checks_shape h1
        exact hLoc q (List.mem_map_of_mem Prod.fst hq)
      · obtain ⟨q, ri, hq, rfl⟩ := download_checks_shape h2
        exact hR q (List.mem_map_of_mem Prod.fst hq)
    · obtain ⟨q, f, hq, rfl, _, _⟩ := cleanup_checks_shape h3
      exact hC q (List.mem_map_of_mem Prod.fst hq)
  refine ⟨hLoc, hPlan, ?_, ?_⟩
  · intro q hq
    rcases run_actions_files_keys envs total _ i st q hq with h | ⟨a, ha, rfl⟩
    · exact hC q h
    · exact hPlan a ha
  · intro r hr
    rw [run_actions_sync_log] at hr
    rcases List.mem_append.mp hr with h | h
    · exact hLg r h
    · obtain ⟨a, ha, hfp⟩ := logRows_file_path envs _ _ _ h
      rw [hfp]
      exact hPlan a ha

/-- C6 witness: the amended theorem at a concrete cycle whose local walk
saw `notes.txt` and `.hidden`; the surviving snapshot key is dot-free. -/
theorem hidden_filter_local_only_witness :
    starts_with_dot "notes.txt" = false :=
  (hidden_filter_local_only 0 [entryNotes, entryHidden] [] (fun _ => envOK)
    1 0 st0 (by decide) (by decide) (by decide)).1 "notes.txt" (by decide)

/- ### Cycle-level lemmas -/

theorem perform_sync_counters (env : CycleEnv) (st : EngineState) :
    (perform_sync env st).1.status.files_uploaded =
      st.status.files_uploaded +
        count_succ isUpload env.exec_envs 0 (cyclePlan env st) ∧
    (perform_sync env st).1.status.files_downloaded =
      st.status.files_downloaded +
        count_succ isDownload env.exec_envs 0 (cyclePlan env st) ∧
    (perform_sync env st).1.status.files_deleted =
      st.status.files_deleted +
        count_succ isRemove env.exec_envs 0 (cyclePlan env st) := by
  rcases hls : env.local_scan with e | entries
  · simp [perform_sync, hls, setOp, cyclePlan, count_succ]
  · simp only [perform_sync, hls]
    split
    · rename_i hlen
      have hnil : determine_sync_actions env.now (scan_local_files entries)
          (scan_remote_files env.remote_listing) st.files = [] :=
        List.length_eq_zero.mp hlen
      simp [setOp, cyclePlan, hls, hnil, count_succ]
    · refine ⟨?_, ?_, ?_⟩
      · rw [run_actions_files_uploaded]
        simp [setOp, cyclePlan, hls]
      · rw [run_actions_files_downloaded]
        simp [setOp, cyclePlan, hls]
      · rw [run_actions_files_deleted]
        simp [setOp, cyclePlan, hls]

theorem perform_sync_log (env : CycleEnv) (st : EngineState) :
    ∃ rows, (perform_sync env st).1.sync_log = st.sync_log ++ rows ∧
      ∀ r ∈ rows, r.action = "upload" ∨ r.action = "download" ∨
        r.action = "remove_from_db" := by
  rcases hls : env.local_scan with e | entries
  · exact ⟨[], by simp [perform_sync, hls, setOp], by simp⟩
  · simp only [perform_sync, hls]
    split
    · exact ⟨[], by simp [setOp], by simp⟩
    · refine ⟨logRows env.exec_envs 0 (determine_sync_actions env.now
        (scan_local_files entries) (scan_remote_files env.remote_listing)
        st.files), ?_, fun r hr => logRows_action _ _ _ _ hr⟩
      rw [run_actions_sync_log]
      rfl

/- ### C8 — single-flight guard -/

/-- C8 counterexample: the `is_syncing` test and set are two separate
Status-lock critical sections, so under the interleaving `check₁ check₂
set₁ set₂ run₁ run₂` **both** concurrent invocations observe `false`,
pass the check, and run the whole cycle — refuting "exactly one of the
concurrent invocations runs the cycle" and the claimed atomicity of the
test-and-set. -/
theorem single_flight_race :
    runSched { flag := false, t1 := TaskPhase.start, t2 := TaskPhase.start }
        [false, true, false, true, false, true] =
      { flag := false, t1 := TaskPhase.finished true,
        t2 := TaskPhase.finished true } := by
  decide

/-- C8 amended: an invocation whose check observes `is_syncing == true`
returns the `AlreadyRunning` error with the catalog, the audit log, the
counters — the whole engine state — untouched; but the check and the set
are two separate Status-lock critical sections, not an atomic
test-and-set, so at that granularity two concurrent invocations can both
pass the check and both run the cycle (see the counterexample; in the
built binary invocations are additionally serialized by the outer
`SyncManager` mutex). -/
theorem sync_busy_early_return (env : CycleEnv) (st : EngineState)
    (h : st.status.is_syncing = true) :
    sync env st = (st, Except.error "Sync already in progress") := by
  simp [sync, h]

/-- C8 witness: the early return at a concrete busy state. -/
theorem sync_busy_early_return_witness :
    sync cenvUploadOne stBusy =
      (stBusy, Except.error "Sync already in progress") :=
  sync_busy_early_return cenvUploadOne stBusy rfl

/- ### C9 — counters across cycles -/

/-- C9 counterexample: with `files_uploaded = 5` left over from earlier
cycles, a cycle with exactly one successful upload ends with the counter
at 6, not at 1: `sync` never resets the counters (its entry update only
clears `sync_errors`). -/
theorem counters_not_reset :
    (sync cenvUploadOne stFive).1.status.files_uploaded = 6 ∧
    count_succ isUpload cenvUploadOne.exec_envs 0
      (cyclePlan cenvUploadOne stFive) = 1 := by
  decide

/-- C9 amended: the counters are not reset at cycle start — only
`sync_errors` is cleared — so at the end of a cycle each counter equals
its value before the cycle plus the number of successful actions of that
kind in that cycle. -/
theorem counters_accumulate (env : CycleEnv) (st : EngineState)
    (hsy : st.status.is_syncing = false) :
    (sync env st).1.status.files_uploaded =
      st.status.files_uploaded +
        count_succ isUpload env.exec_envs 0 (cyclePlan env st) ∧
    (sync env st).1.status.files_downloaded =
      st.status.files_downloaded +
        count_succ isDownload env.exec_envs 0 (cyclePlan env st) ∧
    (sync env st).1.status.files_deleted =
      st.status.files_deleted +
        count_succ isRemove env.exec_envs 0 (cyclePlan env st) := by
  have hc := perform_sync_counters env (sync_entry_status st)
  rcases hr2 : (perform_sync env (sync_entry_status st)).2 with e2 | u2 <;>
    simp only [sync, hsy, Bool.false_eq_true, if_false, hr2,
      log_sync_event, sync_exit_status] <;>
    exact hc

/-- C9 witness: the amended theorem at the concrete one-upload cycle. -/
theorem counters_accumulate_witness :
    (sync cenvUploadOne st0).1.status.files_uploaded =
      st0.status.files_uploaded +
        count_succ isUpload cenvUploadOne.exec_envs 0
          (cyclePlan cenvUploadOne st0) :=
  (counters_accumulate cenvUploadOne st0 rfl).1

/- ### C10 — the final sync_complete audit row -/

/-- C10: an invocation rejected by the single-flight check appends no
audit row at all; an invocation that passes it appends, at the very end
of the cycle, exactly one row with action `sync_complete`, whose status
is `success` if and only if the cycle ran to completion (`failed`, with
the error text, when the local scan aborted it) — and no other row of
the cycle carries the `sync_complete` action. -/
theorem sync_complete_row_appended (env : CycleEnv) (st : EngineState) :
    (st.status.is_syncing = true →
      sync env st = (st, Except.error "Sync already in progress")) ∧
    (st.status.is_syncing = false →
      ∃ rows, (sync env st).1.sync_log = st.sync_log ++ rows ++
          [{ timestamp := env.now, action := "sync_complete",
             file_path := "", status := complStatus (sync env st).2,
             error := complErr (sync env st).2 }] ∧
        ∀ r ∈ rows, r.action ≠ "sync_complete") := by
  constructor
  · intro h
    simp [sync, h]
  · intro h
    obtain ⟨rows, hrows, hact⟩ := perform_sync_log env (sync_entry_status st)
    refine ⟨rows, ?_, fun r hr => ?_⟩
    · rcases hr2 : (perform_sync env (sync_entry_status st)).2 with e2 | u2 <;>
        simp only [sync, h, Bool.false_eq_true, if_false, hr2,
          log_sync_event, sync_exit_status, complStatus, complErr] <;>
        rw [hrows] <;>
        simp [sync_entry_status, List.append_assoc]
    · rcases hact r hr with h1 | h1 | h1 <;> rw [h1] <;> decide

/-- C10 witness: one `sync_complete` row appended after a concrete
completed cycle. -/
theorem sync_complete_row_appended_witness :
    ∃ rows, (sync cenvUploadOne st0).1.sync_log =
        st0.sync_log ++ rows ++
          [{ timestamp := cenvUploadOne.now, action := "sync_complete",
             file_path := "",
             status := complStatus (sync cenvUploadOne st0).2,
             error := complErr (sync cenvUploadOne st0).2 }] ∧
      ∀ r ∈ rows, r.action ≠ "sync_complete" :=
  (sync_complete_row_appended cenvUploadOne st0).2 rfl

end OneDriveSync
